import Mathlib

/-!
Verification of the stac-server ingest/search layer.

Shallow embedding of the three source files of the repository:

* `libs/es.js` — the Elasticsearch layer: the `toEs` transform of `_stream`,
  the query compiler (`buildRangeQuery`, `buildDatetimeQuery`, `buildQuery`,
  `buildIdQuery`, `buildIdsQuery`, `buildSort`, `buildFieldsFilter`),
  `search`, `editPartialItem`, and `create_index`.
* `src/lib/ingest.js` — `ingestItem` / `ingestItems`.
* the SQS/SNS handler — `stacItemFromSnsMessage`.

JavaScript objects that the code treats as string-keyed dictionaries are
embedded as association lists `List (String × Val)` (a JS object has distinct
keys, stated as `Nodup` hypotheses where a proof needs it).  I/O boundaries
(the Elasticsearch client, S3, HTTP) are embedded as explicit state or as
result values passed into the pure function.
-/

namespace StacServer

/-- JSON-ish scalar values appearing as query operands / property values. -/
inductive Val where
  | num (n : Int)
  | str (s : String)
  | boolean (b : Bool)
  | arrStr (vs : List String)
  | arrNum (vs : List Int)
  deriving Repr, DecidableEq

/-- One entry of a record's `links` array: `{rel, href, ...}`. -/
structure Link where
  rel : String
  href : String
  deriving Repr, DecidableEq

/-- A catalog record as the `toEs` transform sees it.  The transform only
inspects `extent`-presence, `geometry`-presence, `id` and `links`; every other
field is carried over verbatim by `Object.assign({}, data, { links })`, which
we embed as the `rest` association list (plus the `collection` field, kept
separately because the spec talks about an item's owning collection). -/
structure CatalogRecord where
  id : String
  hasExtent : Bool
  hasGeometry : Bool
  collection : Option String
  links : List Link
  rest : List (String × Val)
  deriving Repr, DecidableEq

/-- The bulk-write directive built by `toEs` (source: the `record` object:
`{index, type: 'doc', id, action: 'update', _retry_on_conflict: 3,
body: {doc, doc_as_upsert: true}}`). -/
structure EsRecord where
  index : String
  id : String
  action : String
  retryOnConflict : Nat
  doc : CatalogRecord
  docAsUpsert : Bool
  deriving Repr, DecidableEq

/-- Result of pushing one chunk through the `toEs` through2 transform:
`skip` is `next()` with no output, `record` is `next(null, record)`, and
`err` is a synchronous `throw` inside the transform. -/
inductive ToEsResult where
  | skip
  | record (r : EsRecord)
  | err (msg : String)
  deriving Repr, DecidableEq

/-- State of the Elasticsearch cluster visible to this layer: the indices
that exist, with the mapping each was created with. -/
inductive Mapping where
  | collectionsMapping
  | itemsMapping
  deriving Repr, DecidableEq

structure EsState where
  indices : List (String × Mapping)
  deriving Repr, DecidableEq

/-- Semantic truth of `client.indices.exists(name)` (would the promise
resolve to `true`). -/
def indicesExists (st : EsState) (index : String) : Bool :=
  (st.indices.map Prod.fst).contains index

/-- JS truthiness of the *unawaited* promise returned by
`client.indices.exists(index)`: a Promise object is truthy whatever boolean
it later resolves to, so the `if (!client.indices.exists(index))` guard in
`_stream`'s transform sees `true` always. -/
def promiseTruthy (_resolvesTo : Bool) : Bool :=
  true

/-- The fixed hierarchy-link `rel` set stripped before indexing
(source: `const hlinks = ['self', 'root', 'parent', 'child', 'collection',
'item']`). -/
def hlinks : List String :=
  ["self", "root", "parent", "child", "collection", "item"]

/-- The `toEs` transform of `_stream` in `libs/es.js`, applied to one chunk.
`collectionsIndex` / `itemsIndex` are `COLLECTIONS_INDEX` / `ITEMS_INDEX`.
Note the source probes `client.indices.exists(index)` where `index` is the
*items* index name, and uses the unawaited promise directly as the guard. -/
def toEs (client : EsState) (collectionsIndex itemsIndex : String)
    (data : CatalogRecord) : ToEsResult :=
  let classified : Except String (Option String) :=
    if data.hasExtent then
      .ok (some collectionsIndex)
    else if data.hasGeometry then
      if !(promiseTruthy (indicesExists client itemsIndex)) then
        .error ("Collection " ++ itemsIndex ++ " does not exist, add before ingesting items")
      else
        .ok (some itemsIndex)
    else
      .ok none
  match classified with
  | .error m => .err m
  | .ok none => .skip
  | .ok (some index) =>
      let links := data.links.filter (fun link => !(hlinks.contains link.rel))
      let esDataObject : CatalogRecord := { data with links := links }
      .record { index := index, id := esDataObject.id, action := "update",
                retryOnConflict := 3, doc := esDataObject, docAsUpsert := true }

/-! ## Query compiler (`libs/es.js`, pure part) -/

/-- A clause of the compiled query body's `must` list. -/
inductive Clause where
  | term (field : String) (v : Val)
  | termsClause (field : String) (vs : Val)
  | range (field : String) (bounds : List (String × Val))
  | geoShape (field : String) (shape : String)
  deriving Repr, DecidableEq

/-- The list `['gt', 'lt', 'gte', 'lte']` — the order the source's `forEach` visits. -/
def comparisons : List String :=
  ["gt", "lt", "gte", "lte"]

/-- The guard of `buildRangeQuery`:
`operators.includes(gt) || operators.includes(lt) || operators.includes(gte)
|| operators.includes(lte)`. -/
def rangeOpsPresent (operators : List String) : Bool :=
  operators.contains "gt" || operators.contains "lt" ||
  operators.contains "gte" || operators.contains "lte"

/-- The bounds object grown by the `comparisons.forEach` / `Object.assign`
loop of `buildRangeQuery`: each present range operator adds its operand,
visited in `comparisons` order, all into the one object. -/
def rangeBounds (operators : List String)
    (operatorsObject : List (String × Val)) : List (String × Val) :=
  comparisons.foldl (fun bounds comparison =>
    if operators.contains comparison then
      match operatorsObject.lookup comparison with
      | some v => bounds ++ [(comparison, v)]
      | none => bounds
    else bounds) []

/-- Source `buildRangeQuery(property, operators, operatorsObject)`: when any range
operator is present, one `range` clause on `properties.${property}` is built
carrying all the present range operators — they all land in this single
clause. -/
def buildRangeQuery (property : String) (operators : List String)
    (operatorsObject : List (String × Val)) : Option Clause :=
  if rangeOpsPresent operators then
    some (.range ("properties." ++ property) (rangeBounds operators operatorsObject))
  else
    none

/-- Sort rule `{field, direction}` of the `sortby` parameter. -/
structure SortRule where
  field : String
  direction : String
  deriving Repr, DecidableEq

/-- The `fields` parameter: `{include, exclude}` lists (`include` is a Lean
keyword, hence the underscore). -/
structure FieldsParam where
  include_ : Option (List String)
  exclude : Option (List String)
  deriving Repr, DecidableEq

/-- The request-parameter object. `query` maps property names to operator
objects (association lists, as all JS objects here). `fields = some _`
embeds `parameters.hasOwnProperty('fields')` being true. -/
structure SearchParameters where
  query : Option (List (String × List (String × Val))) := none
  intersects : Option String := none
  collections : Option (List String) := none
  datetime : Option String := none
  sortby : Option (List SortRule) := none
  fields : Option FieldsParam := none
  ids : Option (List String) := none
  id : Option String := none
  deriving Repr, DecidableEq

/-- JS `String.prototype.split` with a one-character separator, over the
character list (structurally recursive so that concrete instances evaluate
inside proofs).  Never returns `[]`; the first arm of the inner `match` is
unreachable. -/
def splitChars (sep : Char) : List Char → List (List Char)
  | [] => [[]]
  | c :: rest =>
      match splitChars sep rest with
      | [] => if c = sep then [[], []] else [[c]]
      | h :: t => if c = sep then [] :: h :: t else (c :: h) :: t

/-- The `datetime.split('/')` of the source, as a list of strings. -/
def jsSplit (s : String) (sep : Char) : List String :=
  (splitChars sep s.data).map String.mk

/-- Source `buildDatetimeQuery(parameters)`: a truthy (non-empty) datetime that
splits on `/` into exactly two parts becomes a closed range clause on
`properties.datetime`; any other truthy datetime becomes a term clause. -/
def buildDatetimeQuery (parameters : SearchParameters) : Option Clause :=
  match parameters.datetime with
  | none => none
  | some datetime =>
      if datetime = "" then
        none
      else
        let dataRange := jsSplit datetime '/'
        if dataRange.length = 2 then
          some (.range "properties.datetime"
            [("gte", .str (dataRange.headD "")),
             ("lte", .str ((dataRange.drop 1).headD ""))])
        else
          some (.term "properties.datetime" (.str datetime))

/-- The equality/membership clause one `query` entry contributes:
an `eq` term clause, else an `in` terms clause, else nothing. -/
def eqinClauses (property : String)
    (operatorsObject : List (String × Val)) : List Clause :=
  let operators := operatorsObject.map Prod.fst
  if operators.contains "eq" then
    match operatorsObject.lookup "eq" with
    | some v => [.term ("properties." ++ property) v]
    | none => []
  else if operators.contains "in" then
    match operatorsObject.lookup "in" with
    | some v => [.termsClause ("properties." ++ property) v]
    | none => []
  else
    []

/-- The clauses one `query` entry contributes in `buildQuery`'s reduce:
the equality-or-membership clause, then the merged range clause when
present. -/
def entryClauses (entry : String × List (String × Val)) : List Clause :=
  let property := entry.1
  let operatorsObject := entry.2
  let operators := operatorsObject.map Prod.fst
  match buildRangeQuery property operators operatorsObject with
  | some rangeQuery => eqinClauses property operatorsObject ++ [rangeQuery]
  | none => eqinClauses property operatorsObject

/-- The `must` list assembled by `buildQuery(parameters)`: the reduce over
`Object.keys(query)`, then the collections terms clause, the geo-shape
clause, and the datetime clause, in source order.  (The source wraps this
as `{query: {constant_score: {filter: {bool: {must}}}}}`; the wrapper is
rigid, so theorems quantify over the `must` list.) -/
def buildQuery (parameters : SearchParameters) : List Clause :=
  let must : List Clause :=
    match parameters.query with
    | some query => query.foldl (fun accumulator entry => accumulator ++ entryClauses entry) []
    | none => []
  ((must ++
    (match parameters.collections with
     | some collections => [.termsClause "collection" (.arrStr collections)]
     | none => [])) ++
    (match parameters.intersects with
     | some shape => [.geoShape "geometry" shape]
     | none => [])) ++
    (match buildDatetimeQuery parameters with
     | some datetimeQuery => [datetimeQuery]
     | none => [])

/-- Does a clause's shape match `range` on the given field? -/
def isRangeOn (field : String) : Clause → Bool
  | .range f _ => f == field
  | _ => false

/-- The three body shapes `search` can issue: an ids query, a single-id
constant-score term query, or the general compiled filter. -/
inductive QueryBody where
  | idsQuery (values : List String)
  | idQuery (id : String)
  | constantScore (must : List Clause)
  deriving Repr, DecidableEq

/-- Source `buildSort(parameters)`: explicit `{field, direction}` rules in order,
else the default descending sort on `properties.datetime`. -/
def buildSort (parameters : SearchParameters) : List (String × String) :=
  match parameters.sortby with
  | some sortby =>
      if sortby.length > 0 then
        sortby.map (fun sortRule => (sortRule.field, sortRule.direction))
      else
        [("properties.datetime", "desc")]
  | none => [("properties.datetime", "desc")]

/-- The fixed baseline `_sourceIncludes` list used when a `fields` key is
present at all. -/
def baselineIncludes : List String :=
  ["id", "type", "geometry", "bbox", "links", "assets", "collection",
   "properties.datetime"]

/-- Source `buildFieldsFilter(parameters)`.  Here `parameters.fields = some _` embeds
`parameters.hasOwnProperty('fields')` with a truthy value. -/
def buildFieldsFilter (parameters : SearchParameters) :
    List String × List String :=
  let sourceIncludes : List String :=
    if parameters.fields.isSome then baselineIncludes else []
  match parameters.fields with
  | none => (sourceIncludes, [])
  | some fields =>
      let sourceIncludes :=
        match fields.include_ with
        | some include_ =>
            if include_.length > 0 then
              include_.foldl (fun acc field =>
                if acc.contains field then acc else acc ++ [field]) sourceIncludes
            else sourceIncludes
        | none => sourceIncludes
      match fields.exclude with
      | some exclude =>
          if exclude.length > 0 then
            (sourceIncludes.filter (fun field => !(exclude.contains field)), exclude)
          else (sourceIncludes, [])
      | none => (sourceIncludes, [])

/-- What `search` hands to `client.search`: index scope, body, paging
window, and the optional projection lists. -/
structure SearchCall where
  index : String
  body : QueryBody
  sort : List (String × String)
  size : Nat
  fromOffset : Nat
  sourceIncludes : List String
  sourceExcludes : List String
  deriving Repr, DecidableEq

/-- The `{title, type, href}` object pushed for the "next" link (the source
leaves `href` as the next page number, marked TODO). -/
structure ResponseLink where
  title : String
  linkType : String
  href : Nat
  deriving Repr, DecidableEq

structure SearchContext where
  page : Nat
  limit : Nat
  matched : Nat
  returned : Nat
  deriving Repr, DecidableEq

/-- The response envelope built by `search`. -/
structure SearchResponse where
  results : List Val
  context : SearchContext
  links : List ResponseLink
  deriving Repr, DecidableEq

/-- A `search` run: the issued call plus the response envelope. -/
structure SearchOutcome where
  call : SearchCall
  response : SearchResponse
  deriving Repr, DecidableEq

/-- Source `search(parameters, index, page, limit)` in `libs/es.js`, with the
engine's answer (`body.hits.total` and the `_source` of each hit) passed in
as `engineTotal` / `engineHits`.  Pages are 1-based; `from = (page-1)*limit`
(the source computes this on JS numbers; the claims only concern
`page ≥ 1`, where `Nat` subtraction agrees). -/
def search (parameters : SearchParameters) (index : String) (page limit : Nat)
    (engineTotal : Nat) (engineHits : List Val) : SearchOutcome :=
  let body : QueryBody :=
    match parameters.ids with
    | some ids => .idsQuery ids
    | none =>
        match parameters.id with
        | some id => .idQuery id
        | none => .constantScore (buildQuery parameters)
  let sort := buildSort parameters
  let (sourceIncludes, sourceExcludes) := buildFieldsFilter parameters
  let searchCall : SearchCall :=
    { index := index, body := body, sort := sort, size := limit,
      fromOffset := (page - 1) * limit,
      sourceIncludes := if sourceIncludes.length > 0 then sourceIncludes else [],
      sourceExcludes := if sourceExcludes.length > 0 then sourceExcludes else [] }
  let results := engineHits
  let nextlink : Option Nat :=
    if page * limit < engineTotal then some (page + 1) else none
  let links : List ResponseLink :=
    match nextlink with
    | some n =>
        -- `if (nextlink)`: 0 would be falsy in JS
        if n = 0 then [] else [{ title := "next", linkType := "application/json", href := n }]
    | none => []
  { call := searchCall,
    response :=
      { results := results,
        context :=
          { page := page, limit := limit, matched := engineTotal,
            returned := results.length },
        links := links } }

/-! ## Partial update (`editPartialItem` in `libs/es.js`) -/

/-- In-place `Object.assign(target, source)` on string-keyed objects:
every key of `source` is written into `target`, existing keys keep their
position with the new value, fresh keys are appended in `source` order. -/
def objAssign (target source : List (String × Val)) : List (String × Val) :=
  (target.map (fun kv =>
    match source.lookup kv.1 with
    | some w => (kv.1, w)
    | none => kv)) ++
  source.filter (fun kv => !((target.map Prod.fst).contains kv.1))

/-- The patch object handed to `editPartialItem`: an optional `properties`
object plus the remaining top-level fields.  `properties = none` covers the
JS-falsy cases (key absent, `null`, `undefined`). -/
structure Patch where
  properties : Option (List (String × Val))
  rest : List (String × Val)
  deriving Repr, DecidableEq

/-- What the call leaves behind: the caller-supplied object after the
in-place mutation, and the `doc` of the update body sent to the engine —
in the source these are the *same* object (`body: {doc: updateFields}`). -/
structure EditOutcome where
  callerPatchAfter : Patch
  sentDoc : Patch
  deriving Repr, DecidableEq

/-- Source `editPartialItem(itemId, updateFields)` without the engine round-trip:
builds `requiredProperties = {updated: now}`, merges it *into* the caller's
`updateFields.properties` with `Object.assign` (or installs it as the new
`properties` when that field is falsy), then sends `{doc: updateFields}`. -/
def editPartialItem (now : String) (updateFields : Patch) : EditOutcome :=
  let requiredProperties : List (String × Val) := [("updated", .str now)]
  let mutated : Patch :=
    match updateFields.properties with
    | some properties =>
        { updateFields with properties := some (objAssign properties requiredProperties) }
    | none =>
        { updateFields with properties := some requiredProperties }
  { callerPatchAfter := mutated, sentDoc := mutated }

/-! ## Index lifecycle (`create_index` in `libs/es.js`) -/

inductive JsError where
  | typeError (msg : String)
  deriving Repr, DecidableEq

/-- Reading a method named `name` off `client.indices`: the client exposes
`exists` (and `create`, which is not a boolean probe) but nothing called
`exits`; reading an absent property yields `undefined`, and calling it is a
TypeError.  The source's probe is `client.indices.exits({ index })`. -/
def indicesProbeMethod (name : String) : Option (EsState → String → Bool) :=
  if name = "exists" then some indicesExists else none

/-- Source `create_index(index)`.  The existence probe calls the nonexistent
`indices.exits`, so in the model (as in the source) the call throws before
reaching the creation logic; the creation logic itself is kept faithful:
it creates under the `COLLECTIONS_INDEX` name with the mapping selected by
the *requested* name, and swallows an already-exists creation error. -/
def create_index (COLLECTIONS_INDEX : String) (index : String) (st : EsState) :
    Except JsError EsState :=
  match indicesProbeMethod "exits" with
  | none => .error (.typeError "client.indices.exits is not a function")
  | some probe =>
      let indexExists := probe st index
      let mapping :=
        if index = "collections" then Mapping.collectionsMapping else Mapping.itemsMapping
      if !indexExists then
        -- try { indices.create({index: COLLECTIONS_INDEX, body: mapping}) }
        -- catch (error) { logger.debug(...) } — already-exists swallowed
        if indicesExists st COLLECTIONS_INDEX then
          .ok st
        else
          .ok { st with indices := st.indices ++ [(COLLECTIONS_INDEX, mapping)] }
      else
        .ok st

/-! ## Ingest pipeline (`src/lib/ingest.js`) -/

/-- The `{toDB, dbStream}` pair a stream factory resolves to: the per-chunk
transform and the sink's flush outcome on the transformed batch. -/
structure DbStreams where
  toDB : CatalogRecord → ToEsResult
  dbStream : List EsRecord → Except String Unit

/-- Semantics of `pump(readable, toDB, dbStream, cb)` on the chunk sequence pushed into
`readable`: each chunk passes through the transform (`skip` drops it, `err`
destroys the pipeline with that error), the surviving records reach the
sink, and the callback fires with the sink's flush outcome. -/
def runPipeline (streams : DbStreams) (chunks : List CatalogRecord) :
    Except String Unit := do
  let records ← chunks.foldl
    (fun acc chunk => do
      let rs ← acc
      match streams.toDB chunk with
      | .skip => pure rs
      | .record r => pure (rs ++ [r])
      | .err m => .error m)
    (.ok [])
  streams.dbStream records

/-- Source `ingestItem(item, stream)`: pushes `item` then end-of-stream, resolves
`true` when the pump callback reports no error, rejects with the error
otherwise. -/
def ingestItem (item : CatalogRecord) (stream : Unit → DbStreams) :
    Except String Bool :=
  match runPipeline (stream ()) [item] with
  | .ok _ => .ok true
  | .error e => .error e

/-- Source `ingestItems(items, stream)`: `items.forEach(push)` then end-of-stream,
with the same pump callback as `ingestItem` (only the log line differs). -/
def ingestItems (items : List CatalogRecord) (stream : Unit → DbStreams) :
    Except String Bool :=
  match runPipeline (stream ()) (items.foldl (fun acc item => acc ++ [item]) []) with
  | .ok _ => .ok true
  | .error e => .error e

/-! ## SNS message normalization (the unnamed ingest handler file) -/

/-- What `stacItemFromSnsMessage` resolves to: an object-storage read, an
HTTP GET expecting JSON, or the message taken by value. -/
inductive FetchAction where
  | s3Read (bucket key : String)
  | httpGetJson (href : String)
  | byValue
  deriving Repr, DecidableEq

/-- An SNS message payload as far as the dereferencer looks at it. -/
structure SnsPayload where
  href : Option String
  deriving Repr, DecidableEq

/-- Model of `new URL(href).protocol`: the scheme, lowercased, with the trailing
colon.  (Built over the character list so concrete instances evaluate
inside proofs.) -/
def urlProtocol (href : String) : String :=
  String.mk ((href.data.takeWhile (fun c => c ≠ ':')).map Char.toLower ++ [':'])

/-- The characters after `scheme://`. -/
def urlSchemeRest (href : String) : List Char :=
  ((href.data.dropWhile (fun c => c ≠ ':')).drop 1).drop 2

/-- Model of `new URL(href).hostname` for `scheme://host/path` URLs. -/
def urlHostname (href : String) : String :=
  String.mk ((urlSchemeRest href).takeWhile (fun c => c ≠ '/'))

/-- Model of `new URL(href).pathname.replace(/^\//, '')` for `scheme://host/path`
URLs: the path with its single leading slash stripped. -/
def urlKey (href : String) : String :=
  String.mk (((urlSchemeRest href).dropWhile (fun c => c ≠ '/')).drop 1)

/-- Model of `s.startsWith(p)` over the character lists. -/
def strStartsWith (s p : String) : Bool :=
  p.data.isPrefixOf s.data

/-- Source `stacItemFromSnsMessage(message)`: an `href`-bearing payload is
dereferenced by scheme — `s3:` via object storage, any protocol *starting
with* `http` via a JSON GET, anything else throws `Unsupported source`;
a payload without `href` is the record itself. -/
def stacItemFromSnsMessage (message : SnsPayload) : Except String FetchAction :=
  match message.href with
  | some href =>
      let protocol := urlProtocol href
      if protocol = "s3:" then
        .ok (.s3Read (urlHostname href) (urlKey href))
      else if strStartsWith protocol "http" then
        .ok (.httpGetJson href)
      else
        .error ("Unsupported source: " ++ href)
  | none => .ok .byValue

/-! ## Concrete inputs used as evidence -/

/-- An Item (geometry present) whose `collection` points at a collection
that does not exist in the store. -/
def itemInMissingCollection : CatalogRecord :=
  { id := "item-1", hasExtent := false, hasGeometry := true,
    collection := some "nonexistent-collection",
    links := [{ rel := "self", href := "a" }, { rel := "license", href := "b" }],
    rest := [] }

/-- A cluster with no indices at all. -/
def emptyStore : EsState := { indices := [] }

/-- A record with `extent`, some hierarchy links and some ordinary links. -/
def sampleCollectionRecord : CatalogRecord :=
  { id := "col-1", hasExtent := true, hasGeometry := false, collection := none,
    links := [{ rel := "self", href := "s" }, { rel := "license", href := "l" },
              { rel := "child", href := "c" }, { rel := "about", href := "a" }],
    rest := [("title", .str "a collection")] }

/-- The spec's range example: `query = {foo: {gt: 1, lte: 5}}`. -/
def rangeExampleParams : SearchParameters :=
  { query := some [("foo", [("gt", .num 1), ("lte", .num 5)])] }

/-- A request whose filter puts range operators on the property named
`datetime` *and* carries a `datetime` parameter: both compile to range
clauses on `properties.datetime`. -/
def datetimeClashParams : SearchParameters :=
  { query := some [("datetime", [("gt", .num 1)])],
    datetime := some "2020-01-01/2020-02-01" }

end StacServer

namespace StacServer

/-! ## Association-list helper lemmas -/

theorem lookup_append_left {l₁ l₂ : List (String × Val)} {k : String} {v : Val}
    (h : l₁.lookup k = some v) : (l₁ ++ l₂).lookup k = some v := by
  simp [List.lookup_append, h]

theorem lookup_append_right {l₁ l₂ : List (String × Val)} {k : String}
    (h : l₁.lookup k = none) : (l₁ ++ l₂).lookup k = l₂.lookup k := by
  simp [List.lookup_append, h]

theorem lookup_mem {l : List (String × Val)} {k : String} {v : Val}
    (h : l.lookup k = some v) : (k, v) ∈ l := by
  rcases List.lookup_eq_some_iff.mp h with ⟨l₁, l₂, rfl, -⟩
  exact List.mem_append.mpr (Or.inr (List.mem_cons_self _ _))

theorem mem_lookup_of_nodup {l : List (String × Val)} {k : String} {v : Val}
    (hnd : (l.map Prod.fst).Nodup) (h : (k, v) ∈ l) : l.lookup k = some v := by
  induction l with
  | nil => simp at h
  | cons a rest ih =>
      obtain ⟨a1, a2⟩ := a
      simp only [List.map_cons, List.nodup_cons] at hnd
      rcases List.mem_cons.mp h with h | h
      · obtain ⟨rfl, rfl⟩ := Prod.mk.injEq .. ▸ h
        exact List.lookup_cons_self
      · have hne : k ≠ a1 := by
          intro hc
          exact hnd.1 (hc ▸ List.mem_map_of_mem Prod.fst h)
        rw [List.lookup_cons]
        simp only [beq_eq_false_iff_ne.mpr hne]
        exact ih hnd.2 h

theorem lookup_none_of_not_contains {l : List (String × Val)} {k : String}
    (h : (l.map Prod.fst).contains k = false) : l.lookup k = none := by
  rw [List.lookup_eq_none_iff]
  intro p hp
  simp only [List.contains, List.elem_eq_mem, decide_eq_false_iff_not, List.mem_map] at h
  simp only [bne_iff_ne, ne_eq]
  intro hc
  exact h ⟨p, hp, hc.symm⟩

end StacServer

namespace StacServer

/-! ## `objAssign` with the singleton `{updated: now}` source -/

theorem objAssign_single_eq (target : List (String × Val)) (key : String)
    (v : Val) :
    objAssign target [(key, v)] =
      (target.map (fun kv => if kv.1 = key then (kv.1, v) else kv)) ++
      (if (target.map Prod.fst).contains key then [] else [(key, v)]) := by
  unfold objAssign
  congr 1
  · apply List.map_congr_left
    intro kv _
    by_cases h : kv.1 = key
    · simp [List.lookup_cons, h]
    · have hb : (kv.1 == key) = false := beq_eq_false_iff_ne.mpr h
      simp [List.lookup_cons, hb, h]
  · by_cases hm : key ∈ target.map Prod.fst
    · simp [List.filter, List.contains, List.elem_eq_mem, hm]
    · simp [List.filter, List.contains, List.elem_eq_mem, hm]

theorem lookup_map_single_ne (target : List (String × Val)) (key k : String)
    (v : Val) (hka : k ≠ key) :
    (target.map (fun kv => if kv.1 = key then (kv.1, v) else kv)).lookup k =
      target.lookup k := by
  induction target with
  | nil => simp
  | cons a rest ih =>
      obtain ⟨a1, a2⟩ := a
      simp only [List.map_cons]
      by_cases h1 : a1 = key
      · subst h1
        have hkf : (k == a1) = false := beq_eq_false_iff_ne.mpr hka
        simp [List.lookup_cons, hkf, ih]
      · by_cases h2 : k = a1
        · subst h2
          simp [List.lookup_cons, h1]
        · have hkf : (k == a1) = false := beq_eq_false_iff_ne.mpr h2
          simp [List.lookup_cons, hkf, h1, ih]

theorem lookup_map_single_key (target : List (String × Val)) (key : String)
    (v : Val) :
    (target.map (fun kv => if kv.1 = key then (kv.1, v) else kv)).lookup key =
      (target.lookup key).map (fun _ => v) := by
  induction target with
  | nil => simp
  | cons a rest ih =>
      obtain ⟨a1, a2⟩ := a
      simp only [List.map_cons]
      by_cases h1 : a1 = key
      · subst h1
        simp [List.lookup_cons]
      · have hkf : (key == a1) = false := beq_eq_false_iff_ne.mpr (Ne.symm h1)
        simp [List.lookup_cons, hkf, h1, ih]

theorem objAssign_single_lookup_key (target : List (String × Val))
    (key : String) (v : Val) :
    (objAssign target [(key, v)]).lookup key = some v := by
  rw [objAssign_single_eq]
  rcases hlook : target.lookup key with - | w
  · have hmapped := lookup_map_single_key target key v
    rw [hlook] at hmapped
    simp only [Option.map_none'] at hmapped
    rw [lookup_append_right hmapped]
    have hnotmem : key ∉ target.map Prod.fst := by
      intro hm
      obtain ⟨p, hp, hpk⟩ := List.mem_map.mp hm
      have hne := (List.lookup_eq_none_iff.mp hlook) p hp
      rw [hpk] at hne
      simp at hne
    simp [List.contains, List.elem_eq_mem, hnotmem]
  · have hmapped := lookup_map_single_key target key v
    rw [hlook] at hmapped
    simp only [Option.map_some'] at hmapped
    exact lookup_append_left hmapped

theorem objAssign_single_lookup_other (target : List (String × Val))
    (key k : String) (v w : Val) (hk : k ≠ key)
    (h : target.lookup k = some w) :
    (objAssign target [(key, v)]).lookup k = some w := by
  rw [objAssign_single_eq]
  have hmapped := lookup_map_single_ne target key k v hk
  rw [h] at hmapped
  exact lookup_append_left hmapped

/-! ## Claim theorems -/

/-- Claim C5 (confirmed).  For every partial-update
call, the `doc` sent to the engine carries a server-set `updated` timestamp;
when the patch already has a `properties` object every caller-supplied
property other than `updated` keeps its value, and when it has none the sent
`properties` object holds exactly the timestamp.  The non-`properties`
top-level fields of the patch are sent unchanged. -/
theorem editPartialItem_doc_spec (now : String) (patch : Patch) :
    (∀ props, patch.properties = some props →
      ∃ ps, (editPartialItem now patch).sentDoc.properties = some ps ∧
        ps.lookup "updated" = some (.str now) ∧
        (∀ k v, k ≠ "updated" → props.lookup k = some v → ps.lookup k = some v)) ∧
    (patch.properties = none →
      (editPartialItem now patch).sentDoc.properties = some [("updated", .str now)]) ∧
    (editPartialItem now patch).sentDoc.rest = patch.rest := by
  refine ⟨?_, ?_, ?_⟩
  · intro props hprops
    refine ⟨objAssign props [("updated", .str now)], ?_, ?_, ?_⟩
    · simp [editPartialItem, hprops]
    · exact objAssign_single_lookup_key props "updated" (.str now)
    · intro k v hk hkv
      exact objAssign_single_lookup_other props "updated" k (.str now) v hk hkv
  · intro hnone
    simp [editPartialItem, hnone]
  · cases hp : patch.properties <;> simp [editPartialItem, hp]

/-- Witness for C5: the two worked examples of the spec, `{status:"archived"}`
without and with an explicit `properties` object. -/
theorem editPartialItem_doc_spec_witness :
    ((editPartialItem "2024-01-01T00:00:00Z"
        { properties := none, rest := [("status", .str "archived")] }).sentDoc.properties =
      some [("updated", .str "2024-01-01T00:00:00Z")]) ∧
    (∃ ps, (editPartialItem "2024-01-01T00:00:00Z"
        { properties := some [("status", .str "archived")], rest := [] }).sentDoc.properties =
          some ps ∧
      ps.lookup "updated" = some (.str "2024-01-01T00:00:00Z") ∧
      ps.lookup "status" = some (.str "archived")) := by
  constructor
  · exact (editPartialItem_doc_spec "2024-01-01T00:00:00Z"
      { properties := none, rest := [("status", .str "archived")] }).2.1 rfl
  · obtain ⟨ps, hps, hupd, hkeep⟩ :=
      (editPartialItem_doc_spec "2024-01-01T00:00:00Z"
        { properties := some [("status", .str "archived")], rest := [] }).1
        [("status", .str "archived")] rfl
    exact ⟨ps, hps, hupd, hkeep "status" (.str "archived") (by decide) rfl⟩

/-- Claim C10 (confirmed).  `editPartialItem` mutates the caller's patch
object: the object observed after the call is the very object sent as the
update `doc`; a `properties.updated` entry holding the server timestamp is
written into it (creating `properties` when the patch had none), and a
caller-supplied `properties.updated` value is overwritten by the server
timestamp. -/
theorem editPartialItem_mutates_caller (now : String) (patch : Patch) :
    (editPartialItem now patch).callerPatchAfter = (editPartialItem now patch).sentDoc ∧
    (patch.properties = none →
      (editPartialItem now patch).callerPatchAfter.properties =
        some [("updated", .str now)]) ∧
    (∀ props, patch.properties = some props →
      ∃ ps, (editPartialItem now patch).callerPatchAfter.properties = some ps ∧
        ps.lookup "updated" = some (.str now)) := by
  refine ⟨?_, ?_, ?_⟩
  · cases hp : patch.properties <;> simp [editPartialItem, hp]
  · intro hnone
    simp [editPartialItem, hnone]
  · intro props hprops
    refine ⟨objAssign props [("updated", .str now)], ?_, ?_⟩
    · simp [editPartialItem, hprops]
    · exact objAssign_single_lookup_key props "updated" (.str now)

/-- Witness for C10: a patch that already carries `properties.updated =
"caller"` has it overwritten with the server timestamp in the caller's own
object. -/
theorem editPartialItem_mutates_caller_witness :
    ((editPartialItem "2024-01-01T00:00:00Z"
        { properties := some [("updated", .str "caller")], rest := [] }).callerPatchAfter =
      (editPartialItem "2024-01-01T00:00:00Z"
        { properties := some [("updated", .str "caller")], rest := [] }).sentDoc) ∧
    (∃ ps, (editPartialItem "2024-01-01T00:00:00Z"
        { properties := some [("updated", .str "caller")], rest := [] }).callerPatchAfter.properties =
          some ps ∧
      ps.lookup "updated" = some (.str "2024-01-01T00:00:00Z")) := by
  have h := editPartialItem_mutates_caller "2024-01-01T00:00:00Z"
    { properties := some [("updated", .str "caller")], rest := [] }
  exact ⟨h.1, h.2.2 [("updated", .str "caller")] rfl⟩

end StacServer

namespace StacServer

/-- Claim C1 (confirmed).  Every record the transform classifies as Collection
or Item yields a write directive whose document excludes exactly the links
with a hierarchy `rel`, keeps every other link with its multiplicity in the
original order (sublist), and is a fresh copy of the source record: every
non-`links` field of the document equals the source's, and the source record
itself is untouched (the embedding is pure, mirroring
`Object.assign({}, data, {links})`). -/
theorem toEs_strips_hierarchy_links (client : EsState)
    (collectionsIndex itemsIndex : String) (d : CatalogRecord)
    (h : d.hasExtent = true ∨ d.hasGeometry = true) :
    ∃ r : EsRecord, toEs client collectionsIndex itemsIndex d = .record r ∧
      (∀ l : Link, l ∈ r.doc.links ↔ (l ∈ d.links ∧ l.rel ∉ hlinks)) ∧
      r.doc.links.Sublist d.links ∧
      (∀ l : Link, l.rel ∉ hlinks → r.doc.links.count l = d.links.count l) ∧
      r.doc.id = d.id ∧ r.doc.hasExtent = d.hasExtent ∧
      r.doc.hasGeometry = d.hasGeometry ∧ r.doc.collection = d.collection ∧
      r.doc.rest = d.rest := by
  have hrec : ∃ index : String, toEs client collectionsIndex itemsIndex d =
      .record { index := index, id := d.id, action := "update",
                retryOnConflict := 3,
                doc := { d with
                  links := d.links.filter (fun link => !(hlinks.contains link.rel)) },
                docAsUpsert := true } := by
    cases hx : d.hasExtent with
    | true => exact ⟨collectionsIndex, by simp [toEs, hx]⟩
    | false =>
        cases hg : d.hasGeometry with
        | true => exact ⟨itemsIndex, by simp [toEs, hx, hg, promiseTruthy]⟩
        | false => rw [hx, hg] at h; rcases h with h | h <;> exact absurd h (by simp)
  obtain ⟨index, hrec⟩ := hrec
  refine ⟨_, hrec, ?_, ?_, ?_, rfl, rfl, rfl, rfl, rfl⟩
  · intro l
    simp [List.mem_filter, List.contains, List.elem_eq_mem]
  · exact List.filter_sublist _
  · intro l hl
    apply List.count_filter
    simp [List.contains, List.elem_eq_mem, hl]

/-- Witness for C1: the sample collection record keeps `license` and `about`
links, in order, and drops `self` and `child`. -/
theorem toEs_strips_hierarchy_links_witness :
    ∃ r : EsRecord, toEs emptyStore "collections" "items" sampleCollectionRecord = .record r ∧
      (∀ l : Link, l ∈ r.doc.links ↔ (l ∈ sampleCollectionRecord.links ∧ l.rel ∉ hlinks)) ∧
      r.doc.links.Sublist sampleCollectionRecord.links ∧
      (∀ l : Link, l.rel ∉ hlinks →
        r.doc.links.count l = sampleCollectionRecord.links.count l) ∧
      r.doc.id = sampleCollectionRecord.id ∧
      r.doc.hasExtent = sampleCollectionRecord.hasExtent ∧
      r.doc.hasGeometry = sampleCollectionRecord.hasGeometry ∧
      r.doc.collection = sampleCollectionRecord.collection ∧
      r.doc.rest = sampleCollectionRecord.rest :=
  toEs_strips_hierarchy_links emptyStore "collections" "items"
    sampleCollectionRecord (Or.inl rfl)

/-- Claim C6, code-bug evidence.  An Item whose owning collection is absent —
here the store holds no index at all, so neither the collection
`nonexistent-collection` nor even the items index exists — still produces a
write directive: the guard probes the *items index name* instead of the
item's collection, and it consumes the unawaited promise, which is truthy,
so the `MissingCollectionError` throw is unreachable. -/
theorem toEs_missing_collection_not_rejected :
    indicesExists emptyStore "nonexistent-collection" = false ∧
    indicesExists emptyStore "items" = false ∧
    toEs emptyStore "collections" "items" itemInMissingCollection =
      .record { index := "items", id := "item-1", action := "update",
                retryOnConflict := 3,
                doc := { itemInMissingCollection with
                         links := [{ rel := "license", href := "b" }] },
                docAsUpsert := true } := by
  refine ⟨rfl, rfl, ?_⟩
  rfl

/-- Claim C7, code-bug evidence.  `create_index` never reaches its
creation-and-swallow logic: the existence probe calls `client.indices.exits`
— a method the client does not have — so every call rejects with a
TypeError, for any requested index name and any cluster state. -/
theorem create_index_always_type_errors (COLLECTIONS_INDEX index : String)
    (st : EsState) :
    create_index COLLECTIONS_INDEX index st =
      .error (.typeError "client.indices.exits is not a function") := by
  simp [create_index, indicesProbeMethod]

/-- Claim C9 (confirmed).  `ingestItem(item, stream)` and
`ingestItems([item], stream)` push the same single chunk followed by
end-of-stream through the same `{toDB, dbStream}` pipeline and map the pump
callback to the same result — they are the same function of the sink's
outcome (the source differs only in its log lines). -/
theorem ingestItem_eq_ingestItems_singleton (item : CatalogRecord)
    (stream : Unit → DbStreams) :
    ingestItem item stream = ingestItems [item] stream := rfl

/-- Claim C3, counterexample.  `"2020-01-01/2020-02-01/2020-03-01"` contains a
`/` separator, yet the compiled clause is an exact-match term clause, not a
range clause: the source only builds a range when `split('/')` yields
exactly two parts. -/
theorem buildDatetimeQuery_multi_separator_counterexample :
    ("2020-01-01/2020-02-01/2020-03-01".data.contains '/') = true ∧
    buildDatetimeQuery { datetime := some "2020-01-01/2020-02-01/2020-03-01" } =
      some (.term "properties.datetime"
        (.str "2020-01-01/2020-02-01/2020-03-01")) := by
  exact ⟨by decide, by decide⟩

/-- Claim C3 (amended).  For a present (non-empty) datetime value: when the
value splits on `/` into exactly two parts — i.e. contains exactly one
separator — the compiled clause is a closed range on `properties.datetime`
with `gte` the part before and `lte` the part after; in every other case
(zero separators, or two or more) it is the exact-match term clause on the
whole value. -/
theorem buildDatetimeQuery_split_spec (parameters : SearchParameters)
    (dt : String) (hdt : parameters.datetime = some dt) (hne : dt ≠ "") :
    (∀ a b, jsSplit dt '/' = [a, b] →
      buildDatetimeQuery parameters =
        some (.range "properties.datetime" [("gte", .str a), ("lte", .str b)])) ∧
    ((jsSplit dt '/').length ≠ 2 →
      buildDatetimeQuery parameters =
        some (.term "properties.datetime" (.str dt))) := by
  constructor
  · intro a b hsplit
    simp [buildDatetimeQuery, hdt, hne, hsplit]
  · intro hlen
    simp [buildDatetimeQuery, hdt, hne, hlen]

/-- Witness for C3 (amended): the spec's two datetime examples. -/
theorem buildDatetimeQuery_split_spec_witness :
    buildDatetimeQuery { datetime := some "2020-01-01/2020-02-01" } =
      some (.range "properties.datetime"
        [("gte", .str "2020-01-01"), ("lte", .str "2020-02-01")]) ∧
    buildDatetimeQuery { datetime := some "2020-01-01" } =
      some (.term "properties.datetime" (.str "2020-01-01")) := by
  constructor
  · exact (buildDatetimeQuery_split_spec
      { datetime := some "2020-01-01/2020-02-01" } "2020-01-01/2020-02-01"
      rfl (by decide)).1 "2020-01-01" "2020-02-01" (by decide)
  · exact (buildDatetimeQuery_split_spec
      { datetime := some "2020-01-01" } "2020-01-01"
      rfl (by decide)).2 (by decide)

end StacServer

namespace StacServer

/-- Claim C4 (confirmed).  For a 1-based page and a limit, `search` issues the
engine call with `from = (page-1)*limit` and `size = limit`, reports
`matched` as the engine's total hit count and `returned` as the length of
the fetched page, and the response carries a "next" link exactly when
`page*limit < matched`. -/
theorem search_pagination_spec (parameters : SearchParameters) (index : String)
    (page limit engineTotal : Nat) (engineHits : List Val)
    (_hpage : 1 ≤ page) :
    (search parameters index page limit engineTotal engineHits).call.fromOffset =
      (page - 1) * limit ∧
    (search parameters index page limit engineTotal engineHits).call.size = limit ∧
    (search parameters index page limit engineTotal engineHits).response.context.matched =
      engineTotal ∧
    (search parameters index page limit engineTotal engineHits).response.context.returned =
      engineHits.length ∧
    ((∃ l ∈ (search parameters index page limit engineTotal engineHits).response.links,
        l.title = "next") ↔ page * limit < engineTotal) := by
  refine ⟨rfl, rfl, rfl, rfl, ?_⟩
  by_cases hlt : page * limit < engineTotal
  · simp only [search, if_pos hlt]
    simp [hlt]
  · simp only [search, if_neg hlt]
    simp [hlt]

/-- Witness for C4: the spec's example — page 2, limit 10, 25 total matches,
a fetched page of 10 hits — with `from = 10`, `size = 10`, `matched = 25`,
`returned = 10` and a "next" link present. -/
theorem search_pagination_spec_witness :
    (search {} "*" 2 10 25 (List.replicate 10 (Val.num 0))).call.fromOffset = 1 * 10 ∧
    (search {} "*" 2 10 25 (List.replicate 10 (Val.num 0))).call.size = 10 ∧
    (search {} "*" 2 10 25 (List.replicate 10 (Val.num 0))).response.context.matched = 25 ∧
    (search {} "*" 2 10 25 (List.replicate 10 (Val.num 0))).response.context.returned =
      (List.replicate 10 (Val.num 0)).length ∧
    ((∃ l ∈ (search {} "*" 2 10 25 (List.replicate 10 (Val.num 0))).response.links,
        l.title = "next") ↔ 2 * 10 < 25) :=
  search_pagination_spec {} "*" 2 10 25 (List.replicate 10 (Val.num 0)) (by decide)

/-- Claim C8, counterexample.  The scheme `httpz` is neither `s3`, `http` nor
`https`, yet the normalizer does not fail: `protocol.startsWith('http')`
accepts it and the payload is fetched by HTTP GET, where the claim demands
an `UnsupportedSourceError` and no record. -/
theorem stacItemFromSnsMessage_httpz_counterexample :
    urlProtocol "httpz://example.com/item.json" ≠ "s3:" ∧
    urlProtocol "httpz://example.com/item.json" ≠ "http:" ∧
    urlProtocol "httpz://example.com/item.json" ≠ "https:" ∧
    stacItemFromSnsMessage { href := some "httpz://example.com/item.json" } =
      .ok (.httpGetJson "httpz://example.com/item.json") := by
  refine ⟨by decide, by decide, by decide, by rfl⟩

/-- Claim C8 (amended).  For an `href`-bearing payload: scheme `s3` resolves
via object storage on the URL's bucket and key; any scheme *starting with*
`http` — which includes `http` and `https` — resolves via an HTTP GET
expecting a JSON body; every remaining scheme fails with the
`Unsupported source` error and yields no record. -/
theorem stacItemFromSnsMessage_scheme_dispatch (message : SnsPayload)
    (href : String) (h : message.href = some href) :
    (urlProtocol href = "s3:" →
      stacItemFromSnsMessage message = .ok (.s3Read (urlHostname href) (urlKey href))) ∧
    (urlProtocol href ≠ "s3:" → strStartsWith (urlProtocol href) "http" = true →
      stacItemFromSnsMessage message = .ok (.httpGetJson href)) ∧
    (urlProtocol href ≠ "s3:" → strStartsWith (urlProtocol href) "http" = false →
      stacItemFromSnsMessage message = .error ("Unsupported source: " ++ href)) := by
  refine ⟨?_, ?_, ?_⟩
  · intro hs3
    simp [stacItemFromSnsMessage, h, hs3]
  · intro hns3 hhttp
    simp [stacItemFromSnsMessage, h, hns3, hhttp]
  · intro hns3 hhttp
    simp [stacItemFromSnsMessage, h, hns3, hhttp]

/-- Witness for C8 (amended): the three scheme classes at concrete `href`s —
`s3://bucket/key.json`, `https://example.com/item.json`, and an
`ftp://example.com/item.json` that is rejected. -/
theorem stacItemFromSnsMessage_scheme_dispatch_witness :
    stacItemFromSnsMessage { href := some "s3://bucket/key.json" } =
      .ok (.s3Read "bucket" "key.json") ∧
    stacItemFromSnsMessage { href := some "https://example.com/item.json" } =
      .ok (.httpGetJson "https://example.com/item.json") ∧
    stacItemFromSnsMessage { href := some "ftp://example.com/item.json" } =
      .error ("Unsupported source: " ++ "ftp://example.com/item.json") := by
  refine ⟨?_, ?_, ?_⟩
  · exact (stacItemFromSnsMessage_scheme_dispatch
      { href := some "s3://bucket/key.json" } "s3://bucket/key.json" rfl).1 (by decide)
  · exact (stacItemFromSnsMessage_scheme_dispatch
      { href := some "https://example.com/item.json" } "https://example.com/item.json"
      rfl).2.1 (by decide) (by decide)
  · exact (stacItemFromSnsMessage_scheme_dispatch
      { href := some "ftp://example.com/item.json" } "ftp://example.com/item.json"
      rfl).2.2 (by decide) (by decide)

end StacServer

namespace StacServer

/-! ## C2 lemma chain: one merged range clause per property -/

theorem properties_key_inj {a b : String}
    (h : "properties." ++ a = "properties." ++ b) : a = b := by
  have hd := congrArg String.data h
  simp only [String.data_append] at hd
  exact String.ext (List.append_cancel_left hd)

theorem countP_eqinClauses (f property : String) (ops : List (String × Val)) :
    (eqinClauses property ops).countP (isRangeOn f) = 0 := by
  rw [List.countP_eq_zero]
  intro c hc
  unfold eqinClauses at hc
  by_cases h1 : (ops.map Prod.fst).contains "eq" = true
  · rw [if_pos h1] at hc
    cases hl : ops.lookup "eq" with
    | some v =>
        rw [hl] at hc
        simp only [List.mem_singleton] at hc
        subst hc
        simp [isRangeOn]
    | none => rw [hl] at hc; cases hc
  · rw [if_neg h1] at hc
    by_cases h2 : (ops.map Prod.fst).contains "in" = true
    · rw [if_pos h2] at hc
      cases hl : ops.lookup "in" with
      | some v =>
          rw [hl] at hc
          simp only [List.mem_singleton] at hc
          subst hc
          simp [isRangeOn]
      | none => rw [hl] at hc; cases hc
    · rw [if_neg h2] at hc; cases hc

theorem countP_entryClauses (P : String) (entry : String × List (String × Val)) :
    (entryClauses entry).countP (isRangeOn ("properties." ++ P)) =
      if entry.1 = P ∧ rangeOpsPresent (entry.2.map Prod.fst) = true then 1 else 0 := by
  obtain ⟨Q, ops⟩ := entry
  unfold entryClauses buildRangeQuery
  cases hr : rangeOpsPresent (ops.map Prod.fst) with
  | false =>
      simp only [hr, Bool.false_eq_true, if_false]
      rw [countP_eqinClauses]
      simp [hr]
  | true =>
      simp only [hr, if_true]
      rw [List.countP_append, countP_eqinClauses]
      by_cases hQ : Q = P
      · subst hQ
        simp [isRangeOn, List.countP_cons, hr]
      · have hne : ("properties." ++ Q == "properties." ++ P) = false := by
          apply beq_eq_false_iff_ne.mpr
          intro hc
          exact hQ (properties_key_inj hc)
        simp [isRangeOn, List.countP_cons, hne, hQ]

theorem foldl_entry_append (q : List (String × List (String × Val)))
    (acc : List Clause) :
    q.foldl (fun a e => a ++ entryClauses e) acc =
      acc ++ q.foldl (fun a e => a ++ entryClauses e) [] := by
  induction q generalizing acc with
  | nil => simp
  | cons e rest ih =>
      simp only [List.foldl_cons]
      rw [ih (acc ++ entryClauses e), ih (List.nil ++ entryClauses e)]
      simp [List.append_assoc]

theorem countP_query_fold (P : String)
    (q : List (String × List (String × Val))) :
    (q.foldl (fun a e => a ++ entryClauses e) []).countP
        (isRangeOn ("properties." ++ P)) =
      (q.map (fun e =>
        if e.1 = P ∧ rangeOpsPresent (e.2.map Prod.fst) = true then 1 else 0)).sum := by
  induction q with
  | nil => simp
  | cons e rest ih =>
      rw [List.foldl_cons, foldl_entry_append rest]
      simp only [List.countP_append, List.nil_append, List.map_cons, List.sum_cons]
      rw [ih, countP_entryClauses]

theorem sum_entry_flags_zero (P : String)
    (q : List (String × List (String × Val))) (hP : P ∉ q.map Prod.fst) :
    (q.map (fun e =>
      if e.1 = P ∧ rangeOpsPresent (e.2.map Prod.fst) = true then 1 else 0)).sum = 0 := by
  induction q with
  | nil => simp
  | cons e rest ih =>
      simp only [List.map_cons, List.mem_cons, not_or] at hP
      have hne : ¬(e.1 = P ∧ rangeOpsPresent (e.2.map Prod.fst) = true) := by
        rintro ⟨h1, -⟩
        exact hP.1 h1.symm
      rw [List.map_cons, List.sum_cons, if_neg hne, Nat.zero_add]
      exact ih hP.2

theorem sum_entry_flags_one (P : String) (ops : List (String × Val))
    (q : List (String × List (String × Val)))
    (hmem : (P, ops) ∈ q) (hnd : (q.map Prod.fst).Nodup)
    (hrp : rangeOpsPresent (ops.map Prod.fst) = true) :
    (q.map (fun e =>
      if e.1 = P ∧ rangeOpsPresent (e.2.map Prod.fst) = true then 1 else 0)).sum = 1 := by
  induction q with
  | nil => cases hmem
  | cons e rest ih =>
      simp only [List.map_cons, List.nodup_cons] at hnd
      simp only [List.map_cons, List.sum_cons]
      rcases List.mem_cons.mp hmem with he | he
      · subst he
        have hzero : P ∉ rest.map Prod.fst := hnd.1
        rw [if_pos ⟨rfl, hrp⟩, sum_entry_flags_zero P rest hzero]
      · have hne : e.1 ≠ P := by
          intro hc
          apply hnd.1
          rw [hc]
          exact List.mem_map_of_mem Prod.fst he
        rw [if_neg (by rintro ⟨h1, -⟩; exact hne h1)]
        simp only [Nat.zero_add]
        exact ih he hnd.2

theorem mem_query_fold {c : Clause} {q : List (String × List (String × Val))}
    {e : String × List (String × Val)} (he : e ∈ q) (hc : c ∈ entryClauses e) :
    c ∈ q.foldl (fun a x => a ++ entryClauses x) [] := by
  induction q with
  | nil => cases he
  | cons e0 rest ih =>
      rw [List.foldl_cons, foldl_entry_append rest]
      rcases List.mem_cons.mp he with he | he
      · subst he
        exact List.mem_append.mpr (Or.inl (by simpa using hc))
      · exact List.mem_append.mpr (Or.inr (ih he))

theorem buildDatetimeQuery_field (parameters : SearchParameters) (c : Clause)
    (h : buildDatetimeQuery parameters = some c) :
    (∃ bounds, c = .range "properties.datetime" bounds) ∨
    (∃ v, c = .term "properties.datetime" v) := by
  unfold buildDatetimeQuery at h
  split at h
  · cases h
  · split at h
    · cases h
    · dsimp only at h
      split at h
      · exact Or.inl ⟨_, (Option.some_inj.mp h).symm⟩
      · exact Or.inr ⟨_, (Option.some_inj.mp h).symm⟩

theorem rangeBounds_filterMap (operators : List String)
    (ops : List (String × Val)) :
    rangeBounds operators ops = comparisons.filterMap (fun comparison =>
      if operators.contains comparison then
        (ops.lookup comparison).map (fun v => (comparison, v))
      else none) := by
  have key : ∀ (cs : List String) (acc : List (String × Val)),
      cs.foldl (fun bounds comparison =>
        if operators.contains comparison then
          match ops.lookup comparison with
          | some v => bounds ++ [(comparison, v)]
          | none => bounds
        else bounds) acc =
      acc ++ cs.filterMap (fun comparison =>
        if operators.contains comparison then
          (ops.lookup comparison).map (fun v => (comparison, v))
        else none) := by
    intro cs
    induction cs with
    | nil => simp
    | cons c rest ih =>
        intro acc
        rw [List.foldl_cons, List.filterMap_cons, ih]
        cases hc : operators.contains c with
        | true =>
            cases hl : ops.lookup c with
            | some v => simp [hc, hl, List.append_assoc]
            | none => simp [hc, hl]
        | false => simp [hc]
  unfold rangeBounds
  simpa using key comparisons []

theorem mem_rangeBounds_iff (ops : List (String × Val))
    (hopsnd : (ops.map Prod.fst).Nodup) (c : String) (v : Val) :
    ((c, v) ∈ rangeBounds (ops.map Prod.fst) ops) ↔
      (c ∈ comparisons ∧ (c, v) ∈ ops) := by
  rw [rangeBounds_filterMap, List.mem_filterMap]
  constructor
  · rintro ⟨c0, hc0, hf⟩
    by_cases hcont : (ops.map Prod.fst).contains c0 = true
    · rw [if_pos hcont] at hf
      cases hl : ops.lookup c0 with
      | none => rw [hl] at hf; cases hf
      | some v0 =>
          rw [hl] at hf
          simp only [Option.map_some', Option.some_inj] at hf
          obtain ⟨rfl, rfl⟩ := Prod.mk.injEq .. ▸ hf.symm
          exact ⟨hc0, lookup_mem hl⟩
    · rw [if_neg hcont] at hf; cases hf
  · rintro ⟨hc, hmem⟩
    refine ⟨c, hc, ?_⟩
    have hcont : (ops.map Prod.fst).contains c = true := by
      simp only [List.contains, List.elem_eq_mem, decide_eq_true_iff]
      exact List.mem_map_of_mem Prod.fst hmem
    rw [if_pos hcont, mem_lookup_of_nodup hopsnd hmem]
    rfl

/-- Claim C2, counterexample.  A request whose filter gives the property
`datetime` the range operator set `{gt}` (a non-empty subset of the range
operators) and which also carries a `datetime` parameter compiles to *two*
range clauses on `properties.datetime`, not exactly one: the filter's merged
range clause plus the datetime-parameter range clause. -/
theorem buildQuery_two_range_clauses_on_datetime :
    (buildQuery datetimeClashParams).countP (isRangeOn "properties.datetime") = 2 := by
  decide

/-- Claim C2 (amended).  For every request whose filter gives a property `P` a
non-empty subset of `{gt, lt, gte, lte}`, and where `P` is not also targeted
by a separate `datetime` parameter (either no datetime parameter is present
or `P ≠ "datetime"`), the compiled `must` list contains exactly one range
clause on `properties.P`, and that clause carries all and only the supplied
range bounds with their operand values — never one clause per operator. -/
theorem buildQuery_merged_range_clause (parameters : SearchParameters)
    (q : List (String × List (String × Val))) (P : String)
    (ops : List (String × Val))
    (hq : parameters.query = some q)
    (hqnd : (q.map Prod.fst).Nodup)
    (hopsnd : (ops.map Prod.fst).Nodup)
    (hmem : (P, ops) ∈ q)
    (hrp : rangeOpsPresent (ops.map Prod.fst) = true)
    (hdt : parameters.datetime = none ∨ P ≠ "datetime") :
    ∃ bounds,
      Clause.range ("properties." ++ P) bounds ∈ buildQuery parameters ∧
      (buildQuery parameters).countP (isRangeOn ("properties." ++ P)) = 1 ∧
      (∀ c v, ((c, v) ∈ bounds ↔ (c ∈ comparisons ∧ (c, v) ∈ ops))) := by
  refine ⟨rangeBounds (ops.map Prod.fst) ops, ?_, ?_, ?_⟩
  · -- membership of the merged clause
    have hentry : Clause.range ("properties." ++ P) (rangeBounds (ops.map Prod.fst) ops) ∈
        entryClauses (P, ops) := by
      unfold entryClauses buildRangeQuery
      simp only [hrp, if_true]
      exact List.mem_append.mpr (Or.inr (List.mem_singleton.mpr rfl))
    unfold buildQuery
    rw [hq]
    exact List.mem_append.mpr (Or.inl (List.mem_append.mpr (Or.inl
      (List.mem_append.mpr (Or.inl (mem_query_fold hmem hentry))))))
  · -- exactly one range clause on properties.P
    unfold buildQuery
    rw [hq]
    simp only [List.countP_append]
    have hbase : (q.foldl (fun a e => a ++ entryClauses e) []).countP
        (isRangeOn ("properties." ++ P)) = 1 := by
      rw [countP_query_fold]
      exact sum_entry_flags_one P ops q hmem hqnd hrp
    have hcoll : (match parameters.collections with
        | some collections => [Clause.termsClause "collection" (.arrStr collections)]
        | none => ([] : List Clause)).countP (isRangeOn ("properties." ++ P)) = 0 := by
      cases parameters.collections <;> simp [isRangeOn]
    have hgeo : (match parameters.intersects with
        | some shape => [Clause.geoShape "geometry" shape]
        | none => ([] : List Clause)).countP (isRangeOn ("properties." ++ P)) = 0 := by
      cases parameters.intersects <;> simp [isRangeOn]
    have hdtq : (match buildDatetimeQuery parameters with
        | some datetimeQuery => [datetimeQuery]
        | none => ([] : List Clause)).countP (isRangeOn ("properties." ++ P)) = 0 := by
      cases hbd : buildDatetimeQuery parameters with
      | none => simp
      | some c =>
          have hPne : P ≠ "datetime" := by
            rcases hdt with hdt | hdt
            · exfalso
              unfold buildDatetimeQuery at hbd
              rw [hdt] at hbd
              cases hbd
            · exact hdt
          have hfne : ("properties.datetime" == "properties." ++ P) = false := by
            apply beq_eq_false_iff_ne.mpr
            intro hc
            have : ("properties." ++ "datetime" : String) = "properties." ++ P := hc
            exact hPne (properties_key_inj this).symm
          rcases buildDatetimeQuery_field parameters c hbd with ⟨bounds, rfl⟩ | ⟨v, rfl⟩
          · simp [isRangeOn, hfne]
          · simp [isRangeOn]
    rw [hbase, hcoll, hgeo, hdtq]
  · intro c v
    exact mem_rangeBounds_iff ops hopsnd c v

/-- Witness for C2 (amended): the spec's example `query = {foo: {gt: 1,
lte: 5}}` — one range clause on `properties.foo` carrying exactly the two
supplied bounds. -/
theorem buildQuery_merged_range_clause_witness :
    ∃ bounds,
      Clause.range ("properties." ++ "foo") bounds ∈ buildQuery rangeExampleParams ∧
      (buildQuery rangeExampleParams).countP
        (isRangeOn ("properties." ++ "foo")) = 1 ∧
      (∀ c v, ((c, v) ∈ bounds ↔
        (c ∈ comparisons ∧ (c, v) ∈ [("gt", Val.num 1), ("lte", Val.num 5)]))) :=
  buildQuery_merged_range_clause rangeExampleParams
    [("foo", [("gt", .num 1), ("lte", .num 5)])] "foo"
    [("gt", .num 1), ("lte", .num 5)]
    rfl (by decide) (by decide) (by decide) (by decide) (Or.inl rfl)

end StacServer
